import Mathlib

/-!
# linkerd-dataplane-restarter

A shallow embedding of `linkerd-dataplane-restarter/main.go` and the properties
of its decision logic: the staleness test `shouldRestart`, the grouping done by
`getPodsPerDep`, the confirmation gate (`shouldContinue`, `askForContinuation`)
and the sequential restart loop of `main`.

Go values are embedded as follows.

* A Go `string` is a Lean `String`, the sequence of its runes.
* A Go `map[string]string` (Pod labels and annotations) is an association list
  read with `StrMap.get`; as in Go, reading a key that is not in the map gives
  the zero value `""`.
* The `map[string][]string` built by `getPodsPerDep` is an association list,
  read with `Plan.get` (a missing key gives the nil slice) and written with
  `Plan.set`, which keeps the keys pairwise distinct. Go leaves the order of a
  `range` over a map open; it is the field `rangeOrder` of `Env`.
* Calls that leave the process (the cluster API, `kubectl`, standard input,
  the logger, `time.Sleep`) are explicit: their results are arguments or
  fields of `Env`, and the effects they cause are recorded in the trace of a
  `World`, oldest first. The result of a `kubectl` invocation may depend on
  everything that happened before it and on its arguments.
* Library functions whose code is not part of the repository
  (`time.Duration.String`, `json.MarshalIndent`, the Unicode case tables behind
  `strings.ToLower`) are fields of `Env`. The line scanner of `bufio` is
  `scanText`, with its limit on the length of a line.
-/

namespace Restarter


/-! ## Data model -/

/-- Go `map[string]string`. -/
abbrev StrMap := List (String × String)

/-- Whether the key is in the map (Go `_, ok := m[k]`). -/
def StrMap.contains (m : StrMap) (k : String) : Bool :=
  (m.lookup k).isSome

/-- Go `m[k]`: the stored value, or `""` when the key is not in the map. -/
def StrMap.get (m : StrMap) (k : String) : String :=
  (m.lookup k).getD ""

/-- The fields of `v1.Pod` that the program reads. -/
structure Pod where
  Name : String
  Labels : StrMap
  Annotations : StrMap
deriving DecidableEq, Repr

/-- Go `map[string][]string`, the restart plan: deployment name to Pod identifiers. -/
abbrev Plan := List (String × List String)

/-- The keys of the plan. -/
def Plan.keys (m : Plan) : List String :=
  m.map Prod.fst

/-- Go `m[k]` on the plan: the stored slice, or the nil slice when the key is absent. -/
def Plan.get (m : Plan) (k : String) : List String :=
  (m.lookup k).getD []

/-- Go `m[k] = v` on the plan: overwrite the entry of `k`, or add one. -/
def Plan.set : Plan → String → List String → Plan
  | [], k, v => [(k, v)]
  | (k1, v1) :: rest, k, v =>
    if k1 = k then (k, v) :: rest else (k1, v1) :: Plan.set rest k v

/-! ## Pod classifier -/

/-- Lines 144-148 of main.go, `shouldRestart`. -/
def shouldRestart (pod : Pod) (desiredVersion : String) : Bool :=
  let desiredVal := "linkerd/proxy-injector " ++ desiredVersion
  let val := pod.Annotations.get "linkerd.io/created-by"
  val != "" && val != desiredVal

/-- One iteration of the loop of `getPodsPerDep` (lines 121-129). -/
def getPodsPerDepStep (version : String) (podsPerDep : Plan) (pod : Pod) : Plan :=
  let dep := pod.Labels.get "app"
  if !shouldRestart pod version || dep.utf8ByteSize == 0 then
    podsPerDep
  else
    let name := "pod/" ++ pod.Name
    podsPerDep.set dep (podsPerDep.get dep ++ [name])

/-- Lines 114-131 of main.go, `getPodsPerDep`. The argument `podList` is the result of the
cluster call `cli.CoreV1().Pods("default").List`: an error, or the listed Pods. -/
def getPodsPerDep (podList : Except String (List Pod)) (version : String) :
    Except String Plan :=
  match podList with
  | Except.error err => Except.error err
  | Except.ok items => Except.ok (items.foldl (getPodsPerDepStep version) [])

/-! ## Effects and surroundings -/

/-- The errors the program builds, and `indexOutOfRange` for the run-time panic of an index
expression out of range. -/
inductive Err where
  | restartFailed (depName : String) (cause : String)
  | waitFailed (pods : List String) (cause : String)
  | marshalFailed (cause : String)
  | indexOutOfRange
deriving DecidableEq, Repr

/-- What the process does to the outside, in the order it does it. -/
inductive Effect where
  | log (format : String) (args : List String)
  | print (text : String)
  | readLine
  | exec (name : String) (args : List String)
  | sleep (d : Int)
  | fatal (err : Err)
deriving DecidableEq, Repr

/-- Whether the effect is an external command or a sleep. -/
def Effect.isAction : Effect → Bool
  | Effect.exec _ _ => true
  | Effect.sleep _ => true
  | _ => false

/-- The external commands and sleeps of a trace, in order. -/
def actions (t : List Effect) : List Effect :=
  t.filter Effect.isAction

/-- The state of the outside: what the process has not yet taken from standard input and
the effects caused so far, oldest first. -/
structure World where
  stdin : String
  trace : List Effect
deriving DecidableEq, Repr

/-- Record an effect. -/
def World.emit (w : World) (e : Effect) : World :=
  { w with trace := w.trace ++ [e] }

/-- What the program takes from its surroundings: the flag values, the library functions
whose code is not in the repository, and the behaviour of `kubectl`. The field `readAhead`
gives what is left of standard input once the scanner has done its reads: the scanner takes
at least the line it returns and may buffer more, depending on the kind of input. -/
structure Env where
  timeout : Int
  sleep : Int
  durationString : Int → String
  marshalIndent : List String → Except String String
  unicodeLower : Char → Char
  readAhead : String → String
  rangeOrder : List Effect → Plan → Plan
  run : List Effect → List String → Except String String

/-! ## Confirmation gate -/

/-- The rune mapping of Go `strings.ToLower`: ASCII letters by arithmetic, every other rune
through the Unicode case tables `tbl`. -/
def toLowerRune (tbl : Char → Char) (c : Char) : Char :=
  if c.toNat < 128 then
    if 65 ≤ c.toNat ∧ c.toNat ≤ 90 then Char.ofNat (c.toNat + 32) else c
  else tbl c

/-- Go `strings.ToLower`. -/
def toLower (tbl : Char → Char) (s : String) : String :=
  String.mk (s.data.map (toLowerRune tbl))

/-- The first byte of the UTF-8 encoding of a rune. -/
def leadByte (c : Char) : Nat :=
  if c.toNat < 128 then c.toNat
  else if c.toNat < 2048 then 192 + c.toNat / 64
  else if c.toNat < 65536 then 224 + c.toNat / 4096
  else 240 + c.toNat / 262144

/-- Go `s[0]`: the first byte of the string, `none` when the index is out of range. -/
def byteAt0 (s : String) : Option Nat :=
  s.data.head?.map leadByte

/-- Go `bufio.MaxScanTokenSize`: the size up to which the buffer of a scanner grows. -/
def maxScanTokenSize : Nat := 65536

/-- Go `dropCR` of `bufio.ScanLines`: the data without one final carriage return. -/
def dropCR (data : List Char) : List Char :=
  if data.getLast? = some '\r' then data.dropLast else data

/-- Go `input.Scan(); input.Text()` for a new `bufio.Scanner` on standard input. The scanner
returns the bytes before the first newline, without a final carriage return, when they fit
with the newline into its buffer of `maxScanTokenSize` bytes, or when the input ends before
the buffer is full; both say that the bytes before the newline are fewer than
`maxScanTokenSize`. Otherwise `Scan` fails, as it does at end of input, and `Text` is `""`;
the program does not look at the result of `Scan`. -/
def scanText (stdin : String) : String :=
  let line := stdin.data.takeWhile (fun c => c != '\n')
  if (String.mk line).utf8ByteSize < maxScanTokenSize then String.mk (dropCR line) else ""

/-- Lines 101-112 of main.go, `askForContinuation`. -/
def askForContinuation (env : Env) (w : World) : Except Err Bool × World :=
  let w1 := w.emit (Effect.print "Continue? [Y]/n: ")
  let text := scanText w1.stdin
  let w2 : World := { stdin := env.readAhead w1.stdin, trace := w1.trace ++ [Effect.readLine] }
  match byteAt0 (toLower env.unicodeLower (text ++ "y")) with
  | none => (Except.error Err.indexOutOfRange, w2)
  | some b =>
    if b = 121 ∨ b = 116 then (Except.ok true, w2) else (Except.ok false, w2)

/-- Lines 82-99 of main.go, `shouldContinue`. -/
def shouldContinue (env : Env) (podsPerDep : Plan) (w : World) : Except Err Bool × World :=
  if podsPerDep.length = 0 then
    (Except.ok false, w.emit (Effect.log "No deployments to be restarted" []))
  else
    let depNames := (env.rangeOrder w.trace podsPerDep).map Prod.fst
    match env.marshalIndent depNames with
    | Except.error err => (Except.error (Err.marshalFailed err), w)
    | Except.ok bb =>
      askForContinuation env
        (w.emit (Effect.log "Deployments to be restarted (%d):\n%s"
          [toString depNames.length, bb]))

/-! ## Restart orchestrator -/

/-- Lines 150-161 of main.go, `restartDep`. -/
def restartDep (env : Env) (depName : String) (w : World) : Except Err Unit × World :=
  let w1 := w.emit (Effect.log "Start restarting %q" [depName])
  let args := ["rollout", "restart", "deployment", depName]
  let w2 := w1.emit (Effect.exec "kubectl" args)
  match env.run w1.trace args with
  | Except.error err => (Except.error (Err.restartFailed depName err), w2)
  | Except.ok output => (Except.ok (), w2.emit (Effect.log output []))

/-- Lines 163-174 of main.go, `waitForDeletePods`. -/
def waitForDeletePods (env : Env) (pods : List String) (timeout : Int) (w : World) :
    Except Err Unit × World :=
  let w1 := w.emit (Effect.log "Start waiting for %q" pods)
  let args := ["wait", "--for=delete", "--timeout=" ++ env.durationString timeout] ++ pods
  let w2 := w1.emit (Effect.exec "kubectl" args)
  match env.run w1.trace args with
  | Except.error err => (Except.error (Err.waitFailed pods err), w2)
  | Except.ok _ => (Except.ok (), w2.emit (Effect.log "Finish waiting for %q" pods))

/-- The body of the loop of `main` (lines 55-65) run over the entries of the plan in the
order the `range` statement visits them. `log.Fatal` records the error and ends the run. -/
def mainLoopOver (env : Env) : List (String × List String) → World → Except Err Unit × World
  | [], w => (Except.ok (), w)
  | (dep, podNames) :: rest, w =>
    match restartDep env dep w with
    | (Except.error err, w1) => (Except.error err, w1.emit (Effect.fatal err))
    | (Except.ok _, w1) =>
      match waitForDeletePods env podNames env.timeout w1 with
      | (Except.error err, w2) => (Except.error err, w2.emit (Effect.fatal err))
      | (Except.ok _, w2) => mainLoopOver env rest (w2.emit (Effect.sleep env.sleep))

/-- Lines 55-65 of main.go: the restart loop of `main` over the plan. -/
def mainLoop (env : Env) (podsPerDep : Plan) (w : World) : Except Err Unit × World :=
  mainLoopOver env (env.rangeOrder w.trace podsPerDep) w

/-! ## Vocabulary of the properties -/

/-- The identifiers `"pod/" ++ name` of the Pods of the list that are stale for `version` and
whose label `app` reads `d`, in list order. -/
def staleIdsOf (pods : List Pod) (version d : String) : List String :=
  (pods.filter (fun p => shouldRestart p version && decide (p.Labels.get "app" = d))).map
    (fun p => "pod/" ++ p.Name)

/-- Number of identifiers stored in the plan, all groups together. -/
def Plan.total (m : Plan) : Nat :=
  (m.map (fun e => e.2.length)).sum

/-- Every external command recorded in the trace succeeded when it was run. -/
def CommandsSucceeded (env : Env) (t : List Effect) : Prop :=
  ∀ pre name args post, t = pre ++ Effect.exec name args :: post →
    ∃ out, env.run pre args = Except.ok out

/-- The external commands and sleeps of a run over `order` in which no command fails: for
each entry the restart, the wait for its Pods, and the sleep. -/
def expectedActions (env : Env) : Plan → List Effect
  | [] => []
  | (dep, podNames) :: rest =>
    [Effect.exec "kubectl" ["rollout", "restart", "deployment", dep],
     Effect.exec "kubectl"
       (["wait", "--for=delete", "--timeout=" ++ env.durationString env.timeout] ++ podNames),
     Effect.sleep env.sleep] ++ expectedActions env rest

/-! ## Example inputs -/

/-- A stale Pod whose `app` label is present with the empty value. -/
def podEmptyApp : Pod :=
  { Name := "db-0",
    Labels := [("app", "")],
    Annotations := [("linkerd.io/created-by", "linkerd/proxy-injector v2.1.0")] }

/-- A Pod whose `linkerd.io/created-by` annotation is present with the empty value. -/
def podBlankCreatedBy : Pod :=
  { Name := "web-0",
    Labels := [("app", "web")],
    Annotations := [("linkerd.io/created-by", "")] }

/-- A Pod of deployment `web` injected by the desired version `v2.3.0`. -/
def podCurrent : Pod :=
  { Name := "web-1",
    Labels := [("app", "web")],
    Annotations := [("linkerd.io/created-by", "linkerd/proxy-injector v2.3.0")] }

/-- A Pod of deployment `web` injected by the older version `v2.1.0`. -/
def podOld : Pod :=
  { Name := "web-2",
    Labels := [("app", "web")],
    Annotations := [("linkerd.io/created-by", "linkerd/proxy-injector v2.1.0")] }

/-- A Pod of deployment `api` injected by the older version `v2.1.0`. -/
def podOldApi : Pod :=
  { Name := "api-0",
    Labels := [("app", "api")],
    Annotations := [("linkerd.io/created-by", "linkerd/proxy-injector v2.1.0")] }

/-- A stale Pod without the `app` label. -/
def podNoLabel : Pod :=
  { Name := "job-0",
    Labels := [("tier", "batch")],
    Annotations := [("linkerd.io/created-by", "linkerd/proxy-injector v2.1.0")] }

/-- A Pod of deployment `web` without the `linkerd.io/created-by` annotation. -/
def podUnannotated : Pod :=
  { Name := "web-3",
    Labels := [("app", "web")],
    Annotations := [] }

/-- An environment for the examples: ten minutes of timeout, one minute of sleep, identity
case tables outside ASCII, a scanner that takes all of standard input, `range` in stored
order, and a `kubectl` that fails exactly when three external commands have already been
issued. -/
def envExample : Env :=
  { timeout := 600000000000,
    sleep := 60000000000,
    durationString := fun _ => "10m0s",
    marshalIndent := fun names => Except.ok (String.intercalate "," names),
    unicodeLower := fun c => c,
    readAhead := fun _ => "",
    rangeOrder := fun _ m => m,
    run := fun t _ =>
      if (t.filter (fun e => match e with | Effect.exec _ _ => true | _ => false)).length = 3
      then Except.error "exit status 1" else Except.ok "restarted" }

/-- An environment as `envExample` whose `kubectl` fails exactly when `k` external commands
have already been issued. -/
def envFailingAt (k : Nat) : Env :=
  { envExample with
    run := fun t _ =>
      if (t.filter (fun e => match e with | Effect.exec _ _ => true | _ => false)).length = k
      then Except.error "exit status 1" else Except.ok "restarted" }

/-- An environment whose `kubectl` fails only as a seventh command and whose `range` visits
the plan in the reverse of the stored order. -/
def envLate : Env :=
  { envFailingAt 6 with
    rangeOrder := fun _ m => m.reverse }

/-- A plan of three deployments. -/
def planExample : Plan :=
  [("web", ["pod/web-1", "pod/web-2"]), ("api", ["pod/api-0"]), ("db", ["pod/db-0"])]

/-! ## Strings and maps -/

theorem utf8ByteSize_go_pos (c : Char) (cs : List Char) : 0 < String.utf8ByteSize.go (c :: cs) := by
  have := Char.utf8Size_pos c
  simp only [String.utf8ByteSize.go]
  omega

theorem utf8ByteSize_eq_zero_iff (s : String) : s.utf8ByteSize = 0 ↔ s = "" := by
  cases s with
  | mk l =>
    cases l with
    | nil => simp [String.utf8ByteSize, String.utf8ByteSize.go]
    | cons c cs =>
      have h := utf8ByteSize_go_pos c cs
      constructor
      · intro h0
        simp only [String.utf8ByteSize] at h0
        omega
      · intro h0
        have := congrArg String.data h0
        simp at this

theorem string_append_cancel (a b c : String) : a ++ b = a ++ c ↔ b = c := by
  constructor
  · intro h
    have h1 := congrArg String.data h
    simp only [String.data_append] at h1
    exact String.ext (List.append_cancel_left h1)
  · intro h
    rw [h]

theorem lookup_cons_ite {β : Type} (d k : String) (v : β) (rest : List (String × β)) :
    List.lookup d ((k, v) :: rest) = if d = k then some v else List.lookup d rest := by
  by_cases h : d = k
  · subst h
    simp [List.lookup]
  · have hb : (d == k) = false := by simpa using h
    simp [List.lookup, hb, h]

theorem Plan.lookup_set (m : Plan) (k : String) (v : List String) (d : String) :
    (Plan.set m k v).lookup d = if d = k then some v else m.lookup d := by
  induction m with
  | nil => simp [Plan.set, lookup_cons_ite]
  | cons e rest ih =>
    obtain ⟨k1, v1⟩ := e
    by_cases hk : k1 = k
    · subst hk
      by_cases h : d = k1 <;> simp [Plan.set, lookup_cons_ite, h]
    · by_cases h : d = k
      · subst h
        have : ¬ d = k1 := fun h => hk h.symm
        simp [Plan.set, lookup_cons_ite, hk, this, ih]
      · by_cases h2 : d = k1 <;> simp [Plan.set, lookup_cons_ite, hk, h, h2, ih]

theorem Plan.mem_keys_iff (m : Plan) (d : String) :
    d ∈ Plan.keys m ↔ (m.lookup d).isSome = true := by
  induction m with
  | nil => simp [Plan.keys]
  | cons e rest ih =>
    obtain ⟨k1, v1⟩ := e
    simp only [Plan.keys] at ih
    by_cases h : d = k1
    · simp [Plan.keys, lookup_cons_ite, h]
    · simp only [Plan.keys, List.map_cons, List.mem_cons, h, false_or, lookup_cons_ite, if_false]
      exact ih

theorem Plan.keys_set (m : Plan) (k : String) (v : List String) :
    Plan.keys (Plan.set m k v) = if k ∈ Plan.keys m then Plan.keys m else Plan.keys m ++ [k] := by
  induction m with
  | nil => simp [Plan.set, Plan.keys]
  | cons e rest ih =>
    obtain ⟨k1, v1⟩ := e
    simp only [Plan.keys] at ih
    by_cases hk : k1 = k
    · subst hk
      simp [Plan.set, Plan.keys]
    · have hk2 : ¬ k = k1 := fun h => hk h.symm
      by_cases hm : k ∈ List.map Prod.fst rest
      · simp [Plan.set, Plan.keys, hk, hk2, hm, ih]
      · simp [Plan.set, Plan.keys, hk, hk2, hm, ih]

theorem Plan.nodup_keys_set (m : Plan) (k : String) (v : List String)
    (h : (Plan.keys m).Nodup) : (Plan.keys (Plan.set m k v)).Nodup := by
  rw [Plan.keys_set]
  by_cases hm : k ∈ Plan.keys m
  · simpa [hm] using h
  · simp only [hm, if_false]
    rw [List.nodup_append]
    refine ⟨h, List.nodup_singleton k, ?_⟩
    intro a ha hb
    simp at hb
    exact hm (hb ▸ ha)

theorem Plan.total_set_append (m : Plan) (k x : String) :
    Plan.total (Plan.set m k (Plan.get m k ++ [x])) = Plan.total m + 1 := by
  induction m with
  | nil => simp [Plan.set, Plan.get, Plan.total]
  | cons e rest ih =>
    obtain ⟨k1, v1⟩ := e
    by_cases hk : k1 = k
    · subst hk
      simp [Plan.set, Plan.get, Plan.total, lookup_cons_ite]
      omega
    · have hk2 : ¬ k = k1 := fun h => hk h.symm
      have hg : Plan.get ((k1, v1) :: rest) k = Plan.get rest k := by
        simp [Plan.get, lookup_cons_ite, hk2]
      rw [hg]
      simp only [Plan.set, hk, if_false]
      simp only [Plan.total, List.map_cons, List.sum_cons] at ih ⊢
      rw [ih]
      omega

theorem Plan.lookup_of_mem (m : Plan) (h : (Plan.keys m).Nodup) (k : String) (v : List String)
    (hm : (k, v) ∈ m) : m.lookup k = some v := by
  induction m with
  | nil => simp at hm
  | cons e rest ih =>
    obtain ⟨k1, v1⟩ := e
    simp only [Plan.keys, List.map_cons, List.nodup_cons] at h
    rw [lookup_cons_ite]
    rcases List.mem_cons.mp hm with h1 | h1
    · injection h1 with h2 h3
      subst h2 h3
      simp
    · have hne : ¬ k = k1 := by
        intro h2
        subst h2
        exact h.1 (List.mem_map.mpr ⟨(k, v), h1, rfl⟩)
      rw [if_neg hne]
      exact ih h.2 h1

/-! ## The loop of `getPodsPerDep` -/

theorem staleIdsOf_append (l1 l2 : List Pod) (v d : String) :
    staleIdsOf (l1 ++ l2) v d = staleIdsOf l1 v d ++ staleIdsOf l2 v d := by
  simp [staleIdsOf]

theorem getPodsPerDepStep_skip (v : String) (m : Plan) (p : Pod)
    (h : shouldRestart p v = false ∨ p.Labels.get "app" = "") :
    getPodsPerDepStep v m p = m := by
  unfold getPodsPerDepStep
  rcases h with h | h
  · simp [h]
  · simp [h, String.utf8ByteSize, String.utf8ByteSize.go]

theorem getPodsPerDepStep_keep (v : String) (m : Plan) (p : Pod)
    (h1 : shouldRestart p v = true) (h2 : p.Labels.get "app" ≠ "") :
    getPodsPerDepStep v m p =
      m.set (p.Labels.get "app") (m.get (p.Labels.get "app") ++ ["pod/" ++ p.Name]) := by
  unfold getPodsPerDepStep
  have h3 : ¬ (p.Labels.get "app").utf8ByteSize = 0 := by
    rw [utf8ByteSize_eq_zero_iff]
    exact h2
  simp [h1, h3]

/-- The loop invariant of `getPodsPerDep`: what is stored under each name. -/
theorem fold_lookup (pods : List Pod) (v d : String) :
    (pods.foldl (getPodsPerDepStep v) []).lookup d =
      if d ≠ "" ∧ staleIdsOf pods v d ≠ [] then some (staleIdsOf pods v d) else none := by
  induction pods using List.reverseRecOn with
  | nil => simp [staleIdsOf]
  | append_singleton l p ih =>
    rw [List.foldl_append, staleIdsOf_append]
    simp only [List.foldl_cons, List.foldl_nil]
    by_cases hs : shouldRestart p v = true ∧ p.Labels.get "app" ≠ ""
    · rw [getPodsPerDepStep_keep v _ p hs.1 hs.2, Plan.lookup_set]
      by_cases hd : d = p.Labels.get "app"
      · subst hd
        simp only [Plan.get, ih]
        have h1 : staleIdsOf [p] v (p.Labels.get "app") = ["pod/" ++ p.Name] := by
          simp [staleIdsOf, hs.1]
        rw [h1]
        by_cases he : staleIdsOf l v (p.Labels.get "app") = []
        · simp [he, hs.2]
        · simp [he, hs.2]
      · have hd2 : ¬ p.Labels.get "app" = d := fun h => hd h.symm
        have h1 : staleIdsOf [p] v d = [] := by
          simp [staleIdsOf, hd2]
        rw [h1]
        simp [hd, ih]
    · have hskip : shouldRestart p v = false ∨ p.Labels.get "app" = "" := by
        by_cases h1 : shouldRestart p v = true
        · right
          by_contra h2
          exact hs ⟨h1, h2⟩
        · left
          simpa using h1
      rw [getPodsPerDepStep_skip v _ p hskip, ih]
      by_cases hd : d = ""
      · simp [hd]
      · have h1 : staleIdsOf [p] v d = [] := by
          rcases hskip with h | h
          · simp [staleIdsOf, h]
          · have : ¬ p.Labels.get "app" = d := by
              rw [h]
              exact fun h => hd h.symm
            simp [staleIdsOf, this]
        rw [h1]
        simp

theorem fold_keys_nodup (pods : List Pod) (v : String) :
    (Plan.keys (pods.foldl (getPodsPerDepStep v) [])).Nodup := by
  induction pods using List.reverseRecOn with
  | nil => simp [Plan.keys]
  | append_singleton l p ih =>
    rw [List.foldl_append]
    simp only [List.foldl_cons, List.foldl_nil]
    unfold getPodsPerDepStep
    simp only []
    split
    · exact ih
    · exact Plan.nodup_keys_set _ _ _ ih

theorem fold_filter_eq (keep : Pod → Bool) (v : String)
    (hkeep : ∀ p m, keep p = false → getPodsPerDepStep v m p = m) (pods : List Pod) (m : Plan) :
    (pods.filter keep).foldl (getPodsPerDepStep v) m = pods.foldl (getPodsPerDepStep v) m := by
  induction pods generalizing m with
  | nil => rfl
  | cons p rest ih =>
    by_cases hk : keep p = true
    · simp [List.filter, hk, ih]
    · have hk2 : keep p = false := by simpa using hk
      simp [List.filter, hk2, ih, hkeep p m hk2]

theorem fold_total (pods : List Pod) (v : String) :
    Plan.total (pods.foldl (getPodsPerDepStep v) []) =
      (pods.filter (fun p => shouldRestart p v && decide (p.Labels.get "app" ≠ ""))).length := by
  induction pods using List.reverseRecOn with
  | nil => simp [Plan.total]
  | append_singleton l p ih =>
    rw [List.foldl_append, List.filter_append, List.length_append, ← ih]
    simp only [List.foldl_cons, List.foldl_nil]
    by_cases hs : shouldRestart p v = true ∧ p.Labels.get "app" ≠ ""
    · rw [getPodsPerDepStep_keep v _ p hs.1 hs.2, Plan.total_set_append]
      simp [List.filter, hs.1, hs.2]
    · have hskip : shouldRestart p v = false ∨ p.Labels.get "app" = "" := by
        by_cases h1 : shouldRestart p v = true
        · right
          by_contra h2
          exact hs ⟨h1, h2⟩
        · left
          simpa using h1
      rw [getPodsPerDepStep_skip v _ p hskip]
      rcases hskip with h | h <;> simp [List.filter, h]

theorem fold_mem_keys (pods : List Pod) (v d : String) :
    d ∈ Plan.keys (pods.foldl (getPodsPerDepStep v) []) ↔
      d ≠ "" ∧ ∃ p ∈ pods, p.Labels.get "app" = d ∧ shouldRestart p v = true := by
  rw [Plan.mem_keys_iff, fold_lookup]
  by_cases hd : d = ""
  · simp [hd]
  · simp only [ne_eq, hd, not_false_eq_true, true_and]
    have : staleIdsOf pods v d ≠ [] ↔
        ∃ p ∈ pods, p.Labels.get "app" = d ∧ shouldRestart p v = true := by
      simp only [staleIdsOf, ne_eq, List.map_eq_nil_iff, List.filter_eq_nil_iff, not_forall,
        Bool.and_eq_true, decide_eq_true_eq, not_not]
      constructor
      · rintro ⟨p, hp, h1, h2⟩
        exact ⟨p, hp, h2, h1⟩
      · rintro ⟨p, hp, h1, h2⟩
        exact ⟨p, hp, h2, h1⟩
    by_cases hs : staleIdsOf pods v d = []
    · have h2 := this.not.mp (not_not.mpr hs)
      simp [hs, h2]
    · have h2 := this.mp hs
      simp [hs, h2]

theorem shouldRestart_true_iff_lookup (pod : Pod) (v : String) :
    shouldRestart pod v = true ↔
      ∃ val, pod.Annotations.lookup "linkerd.io/created-by" = some val ∧
        val ≠ "" ∧ val ≠ "linkerd/proxy-injector " ++ v := by
  unfold shouldRestart StrMap.get
  cases h : List.lookup "linkerd.io/created-by" pod.Annotations with
  | none => simp
  | some val => simp

theorem shouldRestart_of_not_contains (pod : Pod) (v : String)
    (h : pod.Annotations.contains "linkerd.io/created-by" = false) :
    shouldRestart pod v = false := by
  unfold StrMap.contains at h
  unfold shouldRestart StrMap.get
  cases hl : List.lookup "linkerd.io/created-by" pod.Annotations with
  | none => simp
  | some val => simp [hl] at h

theorem label_get_of_not_contains (pod : Pod)
    (h : pod.Labels.contains "app" = false) : pod.Labels.get "app" = "" := by
  unfold StrMap.contains at h
  unfold StrMap.get
  cases hl : List.lookup "app" pod.Labels with
  | none => simp
  | some val => simp [hl] at h

/-! ## C1 -/

/-- C1, as stated, fails for the name `""`: the list `[podEmptyApp]` contains a stale Pod
whose label `app` equals `""`, yet the returned map is empty, so `""` is not a key. -/
theorem empty_name_with_stale_pod_not_a_key :
    getPodsPerDep (Except.ok [podEmptyApp]) "v2.3.0" = Except.ok [] ∧
    ¬ ("" ∈ Plan.keys [] ↔
        ∃ p ∈ [podEmptyApp], p.Labels.lookup "app" = some "" ∧ p.Labels.get "app" = "" ∧
          shouldRestart p "v2.3.0" = true) := by
  refine ⟨rfl, ?_⟩
  intro h
  have h2 : "" ∈ Plan.keys [] :=
    h.mpr ⟨podEmptyApp, List.mem_singleton.mpr rfl, by decide, by decide, by decide⟩
  simp [Plan.keys] at h2

/-- C1 (amended): for every list of Pods and desired version, `getPodsPerDep` returns a map,
and a name `d` is a key of it exactly when `d` is non-empty and the list contains a Pod whose
label `app` equals `d` and for which `shouldRestart` is true. -/
theorem getPodsPerDep_key_iff (pods : List Pod) (v : String) :
    ∃ m, getPodsPerDep (Except.ok pods) v = Except.ok m ∧
      ∀ d, d ∈ Plan.keys m ↔
        (d ≠ "" ∧ ∃ p ∈ pods, p.Labels.get "app" = d ∧ shouldRestart p v = true) :=
  ⟨_, rfl, fun d => fold_mem_keys pods v d⟩

/-! ## C2 -/

/-- C2, as stated, fails when the annotation is present with the empty value: the key is in
the annotation map of `podBlankCreatedBy`, the stored value differs from the expected one,
and `shouldRestart` is false. -/
theorem empty_annotation_present_not_stale :
    podBlankCreatedBy.Annotations.contains "linkerd.io/created-by" = true ∧
    podBlankCreatedBy.Annotations.lookup "linkerd.io/created-by" = some "" ∧
    "" ≠ "linkerd/proxy-injector " ++ "v2.3.0" ∧
    shouldRestart podBlankCreatedBy "v2.3.0" = false := by
  refine ⟨by decide, by decide, by decide, by decide⟩

/-- C2 (amended): `shouldRestart` is true exactly when the annotation map contains the key
`linkerd.io/created-by` and the value stored under it is non-empty and differs from
`"linkerd/proxy-injector " ++ v`. -/
theorem shouldRestart_true_iff_present_nonempty_differs (pod : Pod) (v : String) :
    shouldRestart pod v = true ↔
      ∃ val, pod.Annotations.lookup "linkerd.io/created-by" = some val ∧
        val ≠ "" ∧ val ≠ "linkerd/proxy-injector " ++ v :=
  shouldRestart_true_iff_lookup pod v

/-! ## C3 -/

/-- C3: a Pod whose annotation `linkerd.io/created-by` is `"linkerd/proxy-injector " ++ w`
is stale for the desired version `v` if and only if `w` differs from `v`. -/
theorem shouldRestart_injector_version (pod : Pod) (v w : String)
    (h : pod.Annotations.lookup "linkerd.io/created-by" = some ("linkerd/proxy-injector " ++ w)) :
    shouldRestart pod v = true ↔ w ≠ v := by
  have hne : "linkerd/proxy-injector " ++ w ≠ "" := by
    intro h0
    have h1 := congrArg String.length h0
    simp [String.length_append] at h1
    have h2 : "linkerd/proxy-injector ".length = 23 := by decide
    omega
  rw [shouldRestart_true_iff_lookup]
  constructor
  · rintro ⟨val, hval, _, hdiff⟩ hw
    rw [h] at hval
    injection hval with hval
    subst hw
    exact hdiff hval.symm
  · intro hw
    refine ⟨_, h, hne, ?_⟩
    intro heq
    exact hw ((string_append_cancel _ _ _).mp heq)

/-- C3 at the two examples of the specification, desired version `v2.3.0`: the annotation
`linkerd/proxy-injector v2.3.0` is not stale, `linkerd/proxy-injector v2.1.0` is stale. -/
theorem shouldRestart_injector_version_examples :
    (podCurrent.Annotations.lookup "linkerd.io/created-by"
        = some ("linkerd/proxy-injector " ++ "v2.3.0") ∧
      shouldRestart podCurrent "v2.3.0" = false) ∧
    (podOld.Annotations.lookup "linkerd.io/created-by"
        = some ("linkerd/proxy-injector " ++ "v2.1.0") ∧
      shouldRestart podOld "v2.3.0" = true) := by
  refine ⟨⟨by decide, ?_⟩, ⟨by decide, ?_⟩⟩
  · have h := shouldRestart_injector_version podCurrent "v2.3.0" "v2.3.0" (by decide)
    cases hb : shouldRestart podCurrent "v2.3.0" with
    | false => rfl
    | true => exact absurd rfl (h.mp hb)
  · exact (shouldRestart_injector_version podOld "v2.3.0" "v2.1.0" (by decide)).mpr (by decide)

/-! ## C4 -/

/-- C4, as stated, fails in its last part for a stale Pod whose `app` label is present with
the empty value: `podEmptyApp` is stale and carries the label, `podOld` is grouped under
`web`, and the identifier of `podEmptyApp` is in no group of the returned map. -/
theorem empty_label_stale_pod_in_no_group :
    getPodsPerDep (Except.ok [podEmptyApp, podOld]) "v2.3.0"
      = Except.ok [("web", ["pod/web-2"])] ∧
    shouldRestart podEmptyApp "v2.3.0" = true ∧
    podEmptyApp.Labels.contains "app" = true ∧
    ∀ d ∈ Plan.keys [("web", ["pod/web-2"])],
      "pod/" ++ podEmptyApp.Name ∉ Plan.get [("web", ["pod/web-2"])] d := by
  refine ⟨rfl, by decide, by decide, ?_⟩
  intro d hd
  simp only [Plan.keys, List.map_cons, List.map_nil, List.mem_singleton] at hd
  subst hd
  decide

/-- C4 (amended): `getPodsPerDep` returns a map with pairwise distinct keys in which the list
stored under every key `d` is exactly the sequence of identifiers `"pod/" ++ name` of the
input Pods that are stale and whose label `app` equals `d`, in input order, one entry per
such Pod; every stored list is non-empty; every stale Pod whose label `app` is non-empty has
its label as a key and its identifier in the list stored there; and the map holds as many
identifiers in total as there are such Pods, so that each is in exactly one group. -/
theorem getPodsPerDep_groups (pods : List Pod) (v : String) :
    ∃ m, getPodsPerDep (Except.ok pods) v = Except.ok m ∧
      (Plan.keys m).Nodup ∧
      (∀ d ∈ Plan.keys m,
        Plan.get m d =
          (pods.filter (fun p => shouldRestart p v && decide (p.Labels.get "app" = d))).map
            (fun p => "pod/" ++ p.Name) ∧
        Plan.get m d ≠ []) ∧
      (∀ p ∈ pods, shouldRestart p v = true → p.Labels.get "app" ≠ "" →
        p.Labels.get "app" ∈ Plan.keys m ∧
        "pod/" ++ p.Name ∈ Plan.get m (p.Labels.get "app")) ∧
      Plan.total m =
        (pods.filter (fun p => shouldRestart p v && decide (p.Labels.get "app" ≠ ""))).length := by
  refine ⟨_, rfl, fold_keys_nodup pods v, ?_, ?_, fold_total pods v⟩
  · intro d hd
    have hk := (fold_mem_keys pods v d).mp hd
    have hne : staleIdsOf pods v d ≠ [] := by
      obtain ⟨_, p, hp, h1, h2⟩ := hk
      intro h0
      simp only [staleIdsOf, List.map_eq_nil_iff, List.filter_eq_nil_iff, Bool.and_eq_true,
        decide_eq_true_eq] at h0
      exact h0 p hp ⟨h2, h1⟩
    have hg : Plan.get (pods.foldl (getPodsPerDepStep v) []) d = staleIdsOf pods v d := by
      simp [Plan.get, fold_lookup, hk.1, hne]
    rw [hg]
    exact ⟨rfl, hne⟩
  · intro p hp hs hl
    have hmem : "pod/" ++ p.Name ∈ staleIdsOf pods v (p.Labels.get "app") := by
      simp only [staleIdsOf, List.mem_map, List.mem_filter, Bool.and_eq_true, decide_eq_true_eq]
      exact ⟨p, ⟨hp, hs, rfl⟩, rfl⟩
    have hne : staleIdsOf pods v (p.Labels.get "app") ≠ [] := List.ne_nil_of_mem hmem
    refine ⟨(fold_mem_keys pods v _).mpr ⟨hl, p, hp, rfl, hs⟩, ?_⟩
    have hg : Plan.get (pods.foldl (getPodsPerDepStep v) []) (p.Labels.get "app")
        = staleIdsOf pods v (p.Labels.get "app") := by
      simp [Plan.get, fold_lookup, hl, hne]
    rw [hg]
    exact hmem

/-- C4 at a concrete list: two stale Pods of `web` around a stale Pod of `api` and an
up-to-date Pod of `web`. -/
theorem getPodsPerDep_groups_witness :
    ∃ m, getPodsPerDep (Except.ok [podOld, podOldApi, podCurrent, podOld]) "v2.3.0"
        = Except.ok m ∧
      m = [("web", ["pod/web-2", "pod/web-2"]), ("api", ["pod/api-0"])] ∧
      Plan.total m = 3 := by
  obtain ⟨m, hm, _, _, _, ht⟩ :=
    getPodsPerDep_groups [podOld, podOldApi, podCurrent, podOld] "v2.3.0"
  refine ⟨m, hm, ?_, ?_⟩
  · have h2 : getPodsPerDep (Except.ok [podOld, podOldApi, podCurrent, podOld]) "v2.3.0"
        = Except.ok [("web", ["pod/web-2", "pod/web-2"]), ("api", ["pod/api-0"])] := rfl
    rw [h2] at hm
    injection hm with hm
    exact hm.symm
  · rw [ht]
    decide

/-! ## C5 -/

/-- C5: Pods that lack the `app` label contribute nothing to the result of `getPodsPerDep`,
whatever their annotation: the returned map equals the one returned for the list with all
Pods lacking the label removed (and also for the list with all Pods whose `app` label reads
as the empty string removed), and the empty string is never a key of the returned map. -/
theorem getPodsPerDep_ignores_unlabelled (pods : List Pod) (v : String) :
    getPodsPerDep (Except.ok (pods.filter (fun p => p.Labels.contains "app"))) v
      = getPodsPerDep (Except.ok pods) v ∧
    getPodsPerDep (Except.ok (pods.filter (fun p => p.Labels.get "app" != ""))) v
      = getPodsPerDep (Except.ok pods) v ∧
    ∃ m, getPodsPerDep (Except.ok pods) v = Except.ok m ∧ "" ∉ Plan.keys m := by
  refine ⟨?_, ?_, _, rfl, ?_⟩
  · unfold getPodsPerDep
    simp only []
    rw [fold_filter_eq]
    intro p m hp
    exact getPodsPerDepStep_skip v m p (Or.inr (label_get_of_not_contains p hp))
  · unfold getPodsPerDep
    simp only []
    rw [fold_filter_eq]
    intro p m hp
    exact getPodsPerDepStep_skip v m p (Or.inr (by simpa using hp))
  · intro h
    exact ((fold_mem_keys pods v "").mp h).1 rfl

/-- C5 at a concrete list: `podNoLabel` is stale and has no `app` label; with or without it
the plan holds only the stale Pod of `web`. -/
theorem getPodsPerDep_ignores_unlabelled_witness :
    podNoLabel.Labels.contains "app" = false ∧
    shouldRestart podNoLabel "v2.3.0" = true ∧
    getPodsPerDep (Except.ok [podNoLabel, podOld, podNoLabel]) "v2.3.0"
      = Except.ok [("web", ["pod/web-2"])] := by
  have h := getPodsPerDep_ignores_unlabelled [podNoLabel, podOld, podNoLabel] "v2.3.0"
  refine ⟨by decide, by decide, ?_⟩
  rw [← h.1]
  rfl

/-! ## C6 -/

/-- C6: a Pod without the `linkerd.io/created-by` annotation is not stale, and the map
returned by `getPodsPerDep` (keys and stored lists) equals the one returned for the same list
with all Pods without the annotation removed, whatever the other Pods of the list are. -/
theorem getPodsPerDep_ignores_unannotated (pods : List Pod) (v : String) :
    (∀ p ∈ pods, p.Annotations.contains "linkerd.io/created-by" = false →
      shouldRestart p v = false) ∧
    getPodsPerDep
        (Except.ok (pods.filter (fun p => p.Annotations.contains "linkerd.io/created-by"))) v
      = getPodsPerDep (Except.ok pods) v := by
  refine ⟨fun p _ hp => shouldRestart_of_not_contains p v hp, ?_⟩
  unfold getPodsPerDep
  simp only []
  rw [fold_filter_eq]
  intro p m hp
  exact getPodsPerDepStep_skip v m p (Or.inl (shouldRestart_of_not_contains p v hp))

/-- C6 at a concrete list: `podUnannotated` belongs to deployment `web`, whose Pod `podOld`
is stale; the unannotated Pod is not stale and only `podOld` is planned. -/
theorem getPodsPerDep_ignores_unannotated_witness :
    podUnannotated.Annotations.contains "linkerd.io/created-by" = false ∧
    shouldRestart podUnannotated "v2.3.0" = false ∧
    getPodsPerDep (Except.ok [podUnannotated, podOld, podUnannotated]) "v2.3.0"
      = Except.ok [("web", ["pod/web-2"])] := by
  have h := getPodsPerDep_ignores_unannotated [podUnannotated, podOld, podUnannotated] "v2.3.0"
  refine ⟨by decide, h.1 podUnannotated (by simp) (by decide), ?_⟩
  rw [← h.2]
  rfl

/-! ## The first byte of the lower-cased answer -/

theorem char_eq_of_toNat (c : Char) (n : Nat) (h : c.toNat = n) : c = Char.ofNat n := by
  rw [← h, Char.ofNat_toNat]

theorem toNat_ofNat_small (n : Nat) (h : n < 55296) : (Char.ofNat n).toNat = n := by
  have hv : n.isValidChar := Or.inl h
  unfold Char.ofNat
  rw [dif_pos hv]
  rfl

theorem leadByte_eq_small (c : Char) (n : Nat) (hn : n < 128) :
    leadByte c = n ↔ c.toNat = n := by
  unfold leadByte
  split
  · exact Iff.rfl
  · split
    · constructor <;> intro h <;> omega
    · split
      · constructor <;> intro h <;> omega
      · constructor <;> intro h <;> omega

/-- The first byte of a lower-cased rune is the byte `b` of a lower-case ASCII letter exactly
when the rune is that letter or its upper-case form. -/
theorem leadByte_toLowerRune (tbl : Char → Char) (c : Char) (b : Nat)
    (hb1 : 97 ≤ b) (hb2 : b ≤ 122)
    (htbl : 128 ≤ c.toNat → (tbl c).toNat ≠ b) :
    leadByte (toLowerRune tbl c) = b ↔ (c.toNat = b ∨ c.toNat = b - 32) := by
  rw [leadByte_eq_small _ _ (by omega)]
  unfold toLowerRune
  by_cases h128 : c.toNat < 128
  · rw [if_pos h128]
    by_cases hup : 65 ≤ c.toNat ∧ c.toNat ≤ 90
    · rw [if_pos hup, toNat_ofNat_small _ (by omega)]
      omega
    · rw [if_neg hup]
      omega
  · rw [if_neg h128]
    have := htbl (by omega)
    constructor
    · intro h
      exact absurd h this
    · intro h
      omega

theorem byteAt0_toLower_append_y (tbl : Char → Char) (line : String) :
    byteAt0 (toLower tbl (line ++ "y")) =
      some (match line.data with
        | [] => 121
        | c :: _ => leadByte (toLowerRune tbl c)) := by
  unfold byteAt0 toLower
  rw [String.data_append]
  cases line.data with
  | nil => rfl
  | cons c cs => rfl

theorem askForContinuation_fst (env : Env) (w : World) :
    (askForContinuation env w).1 =
      Except.ok (match (scanText w.stdin).data with
        | [] => true
        | c :: _ => decide (leadByte (toLowerRune env.unicodeLower c) = 121
            ∨ leadByte (toLowerRune env.unicodeLower c) = 116)) := by
  unfold askForContinuation
  simp only [World.emit]
  rw [byteAt0_toLower_append_y]
  cases h : (scanText w.stdin).data with
  | nil => simp
  | cons c cs =>
    simp only
    split <;> simp_all

theorem askForContinuation_snd (env : Env) (w : World) :
    (askForContinuation env w).2 =
      { stdin := env.readAhead w.stdin,
        trace := w.trace ++ [Effect.print "Continue? [Y]/n: ", Effect.readLine] } := by
  unfold askForContinuation
  simp only [World.emit]
  rw [byteAt0_toLower_append_y]
  simp only
  split <;> simp

theorem askForContinuation_ok (env : Env) (w : World) :
    ∃ b, (askForContinuation env w).1 = Except.ok b :=
  ⟨_, askForContinuation_fst env w⟩

/-! ## The scanner -/

theorem takeWhile_line (l tl : List Char) (hl : '\n' ∉ l)
    (htl : tl = [] ∨ ∃ r, tl = '\n' :: r) :
    (l ++ tl).takeWhile (fun c => c != '\n') = l := by
  induction l with
  | nil =>
    rcases htl with h | ⟨r, h⟩
    · subst h
      rfl
    · subst h
      simp [List.takeWhile]
  | cons c cs ih =>
    have hc : c ≠ '\n' := fun h => hl (h ▸ List.mem_cons_self c cs)
    have hcs : '\n' ∉ cs := fun h => hl (List.mem_cons_of_mem c h)
    have hb : (c != '\n') = true := by simpa using hc
    rw [List.cons_append, List.takeWhile_cons, hb, ih hcs]
    rfl

theorem dropCR_of_no_cr (l : List Char) (h : l.getLast? ≠ some '\r') : dropCR l = l := by
  unfold dropCR
  rw [if_neg h]

theorem dropCR_append_cr (l : List Char) : dropCR (l ++ ['\r']) = l := by
  unfold dropCR
  rw [if_pos (by simp)]
  simp

theorem scanText_of_line (line cr tail : String) (hline : '\n' ∉ line.data)
    (hlast : line.data.getLast? ≠ some '\r')
    (hcr : cr = "" ∨ cr = "\r")
    (htail : tail = "" ∨ ∃ rest : String, tail = "\n" ++ rest)
    (hsize : (line ++ cr).utf8ByteSize < maxScanTokenSize) :
    scanText (line ++ cr ++ tail) = line := by
  have htl : tail.data = [] ∨ ∃ r, tail.data = '\n' :: r := by
    rcases htail with h | ⟨rest, h⟩
    · subst h
      exact Or.inl rfl
    · subst h
      exact Or.inr ⟨rest.data, rfl⟩
  have hno : '\n' ∉ (line ++ cr).data := by
    rw [String.data_append]
    rcases hcr with h | h
    · subst h
      simpa using hline
    · subst h
      intro hm
      rcases List.mem_append.mp hm with h1 | h1
      · exact hline h1
      · simp at h1
  have htake : (line ++ cr ++ tail).data.takeWhile (fun c => c != '\n') = (line ++ cr).data := by
    rw [String.data_append]
    exact takeWhile_line _ _ hno htl
  have hmk : String.mk (line ++ cr).data = line ++ cr := rfl
  unfold scanText
  simp only [htake, hmk, hsize, if_true]
  apply String.ext
  rw [String.data_append]
  rcases hcr with h | h
  · subst h
    simpa using dropCR_of_no_cr _ hlast
  · subst h
    exact dropCR_append_cr _

theorem scanText_too_long (l tl : List Char) (hl : '\n' ∉ l)
    (htl : tl = [] ∨ ∃ r, tl = '\n' :: r)
    (hsize : maxScanTokenSize ≤ (String.mk l).utf8ByteSize) :
    scanText (String.mk (l ++ tl)) = "" := by
  unfold scanText
  simp only [takeWhile_line l tl hl htl]
  rw [if_neg (by omega)]

theorem utf8ByteSize_replicate_n (k : Nat) :
    (String.mk (List.replicate k 'n')).utf8ByteSize = k := by
  induction k with
  | zero => rfl
  | succ k ih =>
    have h1 : 'n'.utf8Size = 1 := by decide
    simp only [String.utf8ByteSize, List.replicate_succ, String.utf8ByteSize.go, h1] at ih ⊢
    rw [ih]

theorem askForContinuation_of_scan_empty (env : Env) (w : World)
    (h : scanText w.stdin = "") : (askForContinuation env w).1 = Except.ok true := by
  rw [askForContinuation_fst, h]

/-! ## C7 -/

/-- C7, as stated, fails for a line that does not fit into the buffer of the scanner: on
65536 letters `n` followed by a newline `Scan` fails, `Text` is empty and
`askForContinuation` returns true, although the line is not empty and starts with `n`. -/
theorem overlong_line_of_n_proceeds :
    (askForContinuation envExample
      { stdin := String.mk (List.replicate 65536 'n' ++ ['\n']), trace := [] }).1
        = Except.ok true ∧
    '\n' ∉ List.replicate 65536 'n' ∧
    String.mk (List.replicate 65536 'n') ≠ "" ∧
    (List.replicate 65536 'n').head? = some 'n' := by
  have hno : '\n' ∉ List.replicate 65536 'n' := by
    intro h
    have := List.eq_of_mem_replicate h
    exact absurd this (by decide)
  have hscan : scanText (String.mk (List.replicate 65536 'n' ++ ['\n'])) = "" :=
    scanText_too_long _ _ hno (Or.inr ⟨[], rfl⟩)
      (by rw [utf8ByteSize_replicate_n]; exact Nat.le_refl _)
  refine ⟨?_, hno, ?_, ?_⟩
  · exact askForContinuation_of_scan_empty envExample _ hscan
  · intro h
    have h2 : (List.replicate 65536 'n').length = ([] : List Char).length :=
      congrArg (fun x : String => x.data.length) h
    rw [List.length_replicate] at h2
    exact absurd h2 (by decide)
  · have h1 : (65536 : Nat) = 65535 + 1 := rfl
    rw [h1, List.replicate_succ]
    rfl

/-- C7 (amended): provided no rune outside ASCII lower-cases to `y` or `t`,
`askForContinuation` never indexes out of range, returns true at immediate end of input,
and for every line of fewer than 65536 bytes (counting a carriage return before its
newline), followed by a newline or by the end of input, returns true exactly when the line
is empty or its first character is `y`, `Y`, `t` or `T`, and false otherwise. -/
theorem askForContinuation_decision (env : Env)
    (htbl : ∀ c : Char, 128 ≤ c.toNat → env.unicodeLower c ≠ 'y' ∧ env.unicodeLower c ≠ 't')
    (t : List Effect) :
    (∀ text : String, (byteAt0 (toLower env.unicodeLower (text ++ "y"))).isSome = true) ∧
    (askForContinuation env { stdin := "", trace := t }).1 = Except.ok true ∧
    (∀ (line cr tail : String),
      '\n' ∉ line.data →
      line.data.getLast? ≠ some '\r' →
      (cr = "" ∨ cr = "\r") →
      (tail = "" ∨ ∃ rest : String, tail = "\n" ++ rest) →
      (line ++ cr).utf8ByteSize < 65536 →
      ∃ b, (askForContinuation env { stdin := line ++ cr ++ tail, trace := t }).1
          = Except.ok b ∧
        (b = true ↔
          line = "" ∨ line.data.head? = some 'y' ∨ line.data.head? = some 'Y' ∨
            line.data.head? = some 't' ∨ line.data.head? = some 'T')) := by
  refine ⟨?_, ?_, ?_⟩
  · intro text
    rw [byteAt0_toLower_append_y]
    rfl
  · rw [askForContinuation_fst]
    rfl
  · intro line cr tail hline hlast hcr htail hsize
    refine ⟨_, askForContinuation_fst env _, ?_⟩
    simp only [scanText_of_line line cr tail hline hlast hcr htail hsize]
    cases hl : line.data with
    | nil =>
      have : line = "" := String.ext hl
      simp [this]
    | cons c cs =>
      have hne : line ≠ "" := by
        intro h0
        rw [h0] at hl
        simp at hl
      have hy := leadByte_toLowerRune env.unicodeLower c 121 (by omega) (by omega)
        (fun h hx => (htbl c h).1 (by rw [char_eq_of_toNat _ _ hx]))
      have ht := leadByte_toLowerRune env.unicodeLower c 116 (by omega) (by omega)
        (fun h hx => (htbl c h).2 (by rw [char_eq_of_toNat _ _ hx]))
      have e1 : c.toNat = 121 ↔ c = 'y' :=
        ⟨fun h => by rw [char_eq_of_toNat _ _ h], fun h => by rw [h]; rfl⟩
      have e2 : c.toNat = 121 - 32 ↔ c = 'Y' :=
        ⟨fun h => by rw [char_eq_of_toNat _ _ h], fun h => by rw [h]; rfl⟩
      have e3 : c.toNat = 116 ↔ c = 't' :=
        ⟨fun h => by rw [char_eq_of_toNat _ _ h], fun h => by rw [h]; rfl⟩
      have e4 : c.toNat = 116 - 32 ↔ c = 'T' :=
        ⟨fun h => by rw [char_eq_of_toNat _ _ h], fun h => by rw [h]; rfl⟩
      rw [decide_eq_true_eq, hy, ht, e1, e2, e3, e4]
      have hh : ∀ x : Char, (c :: cs).head? = some x ↔ c = x := fun x =>
        ⟨fun h => Option.some.inj h, fun h => congrArg some h⟩
      rw [hh, hh, hh, hh]
      constructor
      · rintro ((h | h) | h | h)
        · exact Or.inr (Or.inl h)
        · exact Or.inr (Or.inr (Or.inl h))
        · exact Or.inr (Or.inr (Or.inr (Or.inl h)))
        · exact Or.inr (Or.inr (Or.inr (Or.inr h)))
      · rintro (h | h | h | h | h)
        · exact absurd h hne
        · exact Or.inl (Or.inl h)
        · exact Or.inl (Or.inr h)
        · exact Or.inr (Or.inl h)
        · exact Or.inr (Or.inr h)

/-- C7 at concrete inputs, with case tables that leave runes outside ASCII unchanged: the
line `no` and a line starting with a space abort; the empty line, `Yes` before a carriage
return and a newline, and `true` before the end of input proceed, as does the immediate end
of input. -/
theorem askForContinuation_decision_witness :
    (∀ c : Char, 128 ≤ c.toNat →
      envExample.unicodeLower c ≠ 'y' ∧ envExample.unicodeLower c ≠ 't') ∧
    (askForContinuation envExample { stdin := "", trace := [] }).1 = Except.ok true ∧
    (askForContinuation envExample { stdin := "no" ++ "" ++ "\n", trace := [] }).1
      = Except.ok false ∧
    (askForContinuation envExample { stdin := " y" ++ "" ++ "\n", trace := [] }).1
      = Except.ok false ∧
    (askForContinuation envExample { stdin := "" ++ "" ++ "\n", trace := [] }).1
      = Except.ok true ∧
    (askForContinuation envExample { stdin := "Yes" ++ "\r" ++ "\nmore\n", trace := [] }).1
      = Except.ok true ∧
    (askForContinuation envExample { stdin := "true" ++ "" ++ "", trace := [] }).1
      = Except.ok true := by
  have hyp : ∀ c : Char, 128 ≤ c.toNat →
      envExample.unicodeLower c ≠ 'y' ∧ envExample.unicodeLower c ≠ 't' := by
    intro c hc
    have h1 : 'y'.toNat = 121 := rfl
    have h2 : 't'.toNat = 116 := rfl
    constructor
    · intro h
      have h3 : c = 'y' := h
      rw [h3] at hc
      omega
    · intro h
      have h3 : c = 't' := h
      rw [h3] at hc
      omega
  have key := askForContinuation_decision envExample hyp []
  refine ⟨hyp, key.2.1, ?_, ?_, ?_, ?_, ?_⟩
  · obtain ⟨b, hb, hiff⟩ := key.2.2 "no" "" "\n" (by decide) (by decide) (Or.inl rfl)
      (Or.inr ⟨"", rfl⟩) (by decide)
    rw [hb]
    cases b with
    | false => rfl
    | true => exact absurd (hiff.mp rfl) (by decide)
  · obtain ⟨b, hb, hiff⟩ := key.2.2 " y" "" "\n" (by decide) (by decide) (Or.inl rfl)
      (Or.inr ⟨"", rfl⟩) (by decide)
    rw [hb]
    cases b with
    | false => rfl
    | true => exact absurd (hiff.mp rfl) (by decide)
  · obtain ⟨b, hb, hiff⟩ := key.2.2 "" "" "\n" (by decide) (by decide) (Or.inl rfl)
      (Or.inr ⟨"", rfl⟩) (by decide)
    rw [hb, hiff.mpr (by decide)]
  · obtain ⟨b, hb, hiff⟩ := key.2.2 "Yes" "\r" "\nmore\n" (by decide) (by decide)
      (Or.inr rfl) (Or.inr ⟨"more\n", rfl⟩) (by decide)
    rw [hb, hiff.mpr (by decide)]
  · obtain ⟨b, hb, hiff⟩ := key.2.2 "true" "" "" (by decide) (by decide) (Or.inl rfl)
      (Or.inl rfl) (by decide)
    rw [hb, hiff.mpr (by decide)]

/-! ## C8 -/

/-- C8: on the empty plan `shouldContinue` returns false without error, its only effect is
the log line, no prompt is printed and standard input is left as it was; on a non-empty
plan, whose names `json.MarshalIndent` encodes, it logs the names and then returns what
`askForContinuation` returns, which is never an error. -/
theorem shouldContinue_gate (env : Env)
    (hjson : ∀ names : List String, ∃ bb, env.marshalIndent names = Except.ok bb)
    (podsPerDep : Plan) (w : World) :
    (podsPerDep = [] →
      shouldContinue env podsPerDep w =
        (Except.ok false,
          { stdin := w.stdin,
            trace := w.trace ++ [Effect.log "No deployments to be restarted" []] })) ∧
    (podsPerDep ≠ [] →
      ∃ bb b,
        env.marshalIndent ((env.rangeOrder w.trace podsPerDep).map Prod.fst) = Except.ok bb ∧
        shouldContinue env podsPerDep w =
          askForContinuation env
            (w.emit (Effect.log "Deployments to be restarted (%d):\n%s"
              [toString ((env.rangeOrder w.trace podsPerDep).map Prod.fst).length, bb])) ∧
        (shouldContinue env podsPerDep w).1 = Except.ok b) := by
  constructor
  · intro h
    subst h
    rfl
  · intro h
    obtain ⟨bb, hbb⟩ := hjson ((env.rangeOrder w.trace podsPerDep).map Prod.fst)
    have hlen : ¬ podsPerDep.length = 0 := by
      intro h0
      exact h (List.length_eq_zero.mp h0)
    have hsc : shouldContinue env podsPerDep w =
        askForContinuation env
          (w.emit (Effect.log "Deployments to be restarted (%d):\n%s"
            [toString ((env.rangeOrder w.trace podsPerDep).map Prod.fst).length, bb])) := by
      unfold shouldContinue
      rw [if_neg hlen]
      simp only [hbb]
    obtain ⟨b, hb⟩ := askForContinuation_ok env
      (w.emit (Effect.log "Deployments to be restarted (%d):\n%s"
        [toString ((env.rangeOrder w.trace podsPerDep).map Prod.fst).length, bb]))
    exact ⟨bb, b, hbb, hsc, by rw [hsc]; exact hb⟩

/-- C8 at concrete plans: with the line `no` waiting on standard input, the empty plan gives
false and leaves the line unread; the plan of one deployment reads it and gives the answer
of `askForContinuation`, false, and no error. -/
theorem shouldContinue_gate_witness :
    (∀ names : List String, ∃ bb, envExample.marshalIndent names = Except.ok bb) ∧
    shouldContinue envExample [] { stdin := "no\n", trace := [] } =
      (Except.ok false,
        { stdin := "no\n", trace := [Effect.log "No deployments to be restarted" []] }) ∧
    (shouldContinue envExample [("web", ["pod/web-2"])] { stdin := "no\n", trace := [] }).1
      = Except.ok false ∧
    (shouldContinue envExample [("web", ["pod/web-2"])] { stdin := "no\n", trace := [] }).2.stdin
      = "" := by
  have hyp : ∀ names : List String, ∃ bb, envExample.marshalIndent names = Except.ok bb :=
    fun names => ⟨_, rfl⟩
  refine ⟨hyp, ?_, ?_, ?_⟩
  · exact (shouldContinue_gate envExample hyp [] { stdin := "no\n", trace := [] }).1 rfl
  · obtain ⟨bb, b, _, hsc, _⟩ :=
      (shouldContinue_gate envExample hyp [("web", ["pod/web-2"])]
        { stdin := "no\n", trace := [] }).2 (by simp)
    rw [hsc, askForContinuation_fst]
    rfl
  · obtain ⟨bb, b, _, hsc, _⟩ :=
      (shouldContinue_gate envExample hyp [("web", ["pod/web-2"])]
        { stdin := "no\n", trace := [] }).2 (by simp)
    rw [hsc, askForContinuation_snd]
    rfl

/-! ## The restart loop -/

theorem snoc_eq_split {α : Type} (t : List α) (e : α) (pre : List α) (x : α) (post : List α)
    (h : t ++ [e] = pre ++ x :: post) :
    (post = [] ∧ t = pre ∧ e = x) ∨ ∃ post1, post = post1 ++ [e] ∧ t = pre ++ x :: post1 := by
  rcases List.eq_nil_or_concat post with hp | ⟨post1, y, hp⟩
  · subst hp
    have h2 := List.append_inj' h rfl
    exact Or.inl ⟨rfl, h2.1, by simpa using h2.2⟩
  · subst hp
    have h3 : t ++ [e] = (pre ++ x :: post1) ++ [y] := by
      rw [h]
      simp
    have h2 := List.append_inj' h3 rfl
    have h4 : e = y := by simpa using h2.2
    subst h4
    exact Or.inr ⟨post1, by simp, h2.1⟩

theorem CommandsSucceeded.nil (env : Env) : CommandsSucceeded env [] := by
  intro pre name args post h
  have := congrArg List.length h
  simp at this
  omega

theorem CommandsSucceeded.snoc_other (env : Env) (t : List Effect) (e : Effect)
    (ht : CommandsSucceeded env t) (he : ∀ n a, e ≠ Effect.exec n a) :
    CommandsSucceeded env (t ++ [e]) := by
  intro pre name args post h
  rcases snoc_eq_split t e pre _ post h with ⟨_, _, h3⟩ | ⟨post1, _, h2⟩
  · exact absurd h3 (he name args)
  · exact ht pre name args post1 h2

theorem CommandsSucceeded.snoc_exec (env : Env) (t : List Effect) (n : String)
    (a : List String) (out : String)
    (ht : CommandsSucceeded env t) (hr : env.run t a = Except.ok out) :
    CommandsSucceeded env (t ++ [Effect.exec n a]) := by
  intro pre name args post h
  rcases snoc_eq_split t _ pre _ post h with ⟨_, h2, h3⟩ | ⟨post1, _, h2⟩
  · injection h3 with h4 h5
    subst h2 h5
    exact ⟨out, hr⟩
  · exact ht pre name args post1 h2

theorem failure_is_last (env : Env) (t : List Effect) (n : String) (a : List String)
    (e : Err) (ht : CommandsSucceeded env t)
    (pre : List Effect) (name : String) (args : List String) (post : List Effect) (err : String)
    (h : t ++ [Effect.exec n a, Effect.fatal e] = pre ++ Effect.exec name args :: post)
    (hfail : env.run pre args = Except.error err) :
    post = [Effect.fatal e] := by
  have h1 : (t ++ [Effect.exec n a]) ++ [Effect.fatal e]
      = pre ++ Effect.exec name args :: post := by
    rw [← h]
    simp
  rcases snoc_eq_split _ _ pre _ post h1 with ⟨_, _, h3⟩ | ⟨post1, hp, h2⟩
  · cases h3
  · rcases snoc_eq_split _ _ pre _ post1 h2 with ⟨hp1, _, _⟩ | ⟨post2, _, h4⟩
    · rw [hp, hp1]
      rfl
    · obtain ⟨out, hout⟩ := ht pre name args post2 h4
      rw [hout] at hfail
      cases hfail

theorem restartDep_ok (env : Env) (d : String) (w : World) (out : String)
    (h : env.run (w.trace ++ [Effect.log "Start restarting %q" [d]])
      ["rollout", "restart", "deployment", d] = Except.ok out) :
    restartDep env d w =
      (Except.ok (),
        { stdin := w.stdin,
          trace := w.trace ++ [Effect.log "Start restarting %q" [d],
            Effect.exec "kubectl" ["rollout", "restart", "deployment", d],
            Effect.log out []] }) := by
  unfold restartDep
  simp only [World.emit, h, List.append_assoc, List.singleton_append]
  rfl

theorem restartDep_error (env : Env) (d : String) (w : World) (err : String)
    (h : env.run (w.trace ++ [Effect.log "Start restarting %q" [d]])
      ["rollout", "restart", "deployment", d] = Except.error err) :
    restartDep env d w =
      (Except.error (Err.restartFailed d err),
        { stdin := w.stdin,
          trace := w.trace ++ [Effect.log "Start restarting %q" [d],
            Effect.exec "kubectl" ["rollout", "restart", "deployment", d]] }) := by
  unfold restartDep
  simp only [World.emit, h, List.append_assoc, List.singleton_append]

theorem waitForDeletePods_ok (env : Env) (pods : List String) (timeout : Int) (w : World)
    (out : String)
    (h : env.run (w.trace ++ [Effect.log "Start waiting for %q" pods])
      (["wait", "--for=delete", "--timeout=" ++ env.durationString timeout] ++ pods)
        = Except.ok out) :
    waitForDeletePods env pods timeout w =
      (Except.ok (),
        { stdin := w.stdin,
          trace := w.trace ++ [Effect.log "Start waiting for %q" pods,
            Effect.exec "kubectl"
              (["wait", "--for=delete", "--timeout=" ++ env.durationString timeout] ++ pods),
            Effect.log "Finish waiting for %q" pods] }) := by
  unfold waitForDeletePods
  simp only [World.emit, h, List.append_assoc, List.singleton_append]
  rfl

theorem waitForDeletePods_error (env : Env) (pods : List String) (timeout : Int) (w : World)
    (err : String)
    (h : env.run (w.trace ++ [Effect.log "Start waiting for %q" pods])
      (["wait", "--for=delete", "--timeout=" ++ env.durationString timeout] ++ pods)
        = Except.error err) :
    waitForDeletePods env pods timeout w =
      (Except.error (Err.waitFailed pods err),
        { stdin := w.stdin,
          trace := w.trace ++ [Effect.log "Start waiting for %q" pods,
            Effect.exec "kubectl"
              (["wait", "--for=delete", "--timeout=" ++ env.durationString timeout] ++ pods)] })
      := by
  unfold waitForDeletePods
  simp only [World.emit, h, List.append_assoc, List.singleton_append]

theorem mainLoopOver_cons_restart_error (env : Env) (d : String) (pods : List String)
    (rest : Plan) (w : World) (err : String)
    (h : env.run (w.trace ++ [Effect.log "Start restarting %q" [d]])
      ["rollout", "restart", "deployment", d] = Except.error err) :
    mainLoopOver env ((d, pods) :: rest) w =
      (Except.error (Err.restartFailed d err),
        { stdin := w.stdin,
          trace := w.trace ++ [Effect.log "Start restarting %q" [d],
            Effect.exec "kubectl" ["rollout", "restart", "deployment", d],
            Effect.fatal (Err.restartFailed d err)] }) := by
  simp only [mainLoopOver, restartDep_error env d w err h, World.emit, List.append_assoc]
  rfl

theorem mainLoopOver_cons_restart_ok (env : Env) (d : String) (pods : List String)
    (rest : Plan) (w : World) (out : String)
    (h : env.run (w.trace ++ [Effect.log "Start restarting %q" [d]])
      ["rollout", "restart", "deployment", d] = Except.ok out) :
    mainLoopOver env ((d, pods) :: rest) w =
      match waitForDeletePods env pods env.timeout (restartDep env d w).2 with
      | (Except.error err, w2) => (Except.error err, w2.emit (Effect.fatal err))
      | (Except.ok _, w2) => mainLoopOver env rest (w2.emit (Effect.sleep env.sleep)) := by
  simp only [mainLoopOver, restartDep_ok env d w out h]

theorem mainLoopOver_invariant (env : Env) (order : Plan) :
    ∀ w : World, CommandsSucceeded env w.trace →
      CommandsSucceeded env (mainLoopOver env order w).2.trace ∨
      ∃ t n a e, (mainLoopOver env order w).2.trace = t ++ [Effect.exec n a, Effect.fatal e] ∧
        CommandsSucceeded env t ∧ ∃ err, env.run t a = Except.error err := by
  induction order with
  | nil =>
    intro w hw
    exact Or.inl hw
  | cons entry rest ih =>
    intro w hw
    obtain ⟨d, pods⟩ := entry
    have hw1 : CommandsSucceeded env (w.trace ++ [Effect.log "Start restarting %q" [d]]) :=
      CommandsSucceeded.snoc_other env _ _ hw (fun n a h => by cases h)
    cases hr : env.run (w.trace ++ [Effect.log "Start restarting %q" [d]])
      ["rollout", "restart", "deployment", d] with
    | error err =>
      right
      rw [mainLoopOver_cons_restart_error env d pods rest w err hr]
      refine ⟨w.trace ++ [Effect.log "Start restarting %q" [d]], "kubectl",
        ["rollout", "restart", "deployment", d], Err.restartFailed d err, ?_, hw1, err, hr⟩
      simp
    | ok out =>
      rw [mainLoopOver_cons_restart_ok env d pods rest w out hr, restartDep_ok env d w out hr]
      simp only
      have hw2 : CommandsSucceeded env (w.trace ++ [Effect.log "Start restarting %q" [d],
          Effect.exec "kubectl" ["rollout", "restart", "deployment", d],
          Effect.log out []]) := by
        have h1 := CommandsSucceeded.snoc_exec env _ "kubectl" _ out hw1 hr
        have h2 := CommandsSucceeded.snoc_other env _ (Effect.log out []) h1
          (fun n a h => by cases h)
        simpa using h2
      have hw3 := CommandsSucceeded.snoc_other env _ (Effect.log "Start waiting for %q" pods)
        hw2 (fun n a h => by cases h)
      cases hwait : env.run
        ((w.trace ++ [Effect.log "Start restarting %q" [d],
          Effect.exec "kubectl" ["rollout", "restart", "deployment", d],
          Effect.log out []]) ++ [Effect.log "Start waiting for %q" pods])
        (["wait", "--for=delete", "--timeout=" ++ env.durationString env.timeout] ++ pods) with
      | error err =>
        right
        rw [waitForDeletePods_error env pods env.timeout _ err hwait]
        refine ⟨_, "kubectl", _, Err.waitFailed pods err, ?_, hw3, err, hwait⟩
        simp [World.emit]
      | ok out2 =>
        rw [waitForDeletePods_ok env pods env.timeout _ out2 hwait]
        simp only
        apply ih
        have h1 := CommandsSucceeded.snoc_exec env _ "kubectl" _ out2 hw3 hwait
        have h2 := CommandsSucceeded.snoc_other env _ (Effect.log "Finish waiting for %q" pods)
          h1 (fun n a h => by cases h)
        have h3 := CommandsSucceeded.snoc_other env _ (Effect.sleep env.sleep)
          h2 (fun n a h => by cases h)
        simpa [World.emit] using h3

theorem mainLoopOver_append (env : Env) (pre rest : Plan) :
    ∀ (w w1 : World), mainLoopOver env pre w = (Except.ok (), w1) →
      mainLoopOver env (pre ++ rest) w = mainLoopOver env rest w1 := by
  induction pre with
  | nil =>
    intro w w1 h
    simp only [mainLoopOver] at h
    injection h with _ h2
    subst h2
    rfl
  | cons entry pre1 ih =>
    intro w w1 h
    obtain ⟨d, pods⟩ := entry
    simp only [List.cons_append, mainLoopOver] at h ⊢
    split at h
    · cases h
    · split at h
      · cases h
      · exact ih _ _ h

theorem expectedActions_length (env : Env) (order : Plan) :
    (expectedActions env order).length = 3 * order.length := by
  induction order with
  | nil => rfl
  | cons e rest ih =>
    obtain ⟨d, pods⟩ := e
    simp only [expectedActions, List.length_append, List.length_cons, List.length_nil, ih]
    omega

theorem getElem?_skip3 {α : Type} (a b c : α) (l : List α) (n m : Nat) (h : m = n + 3) :
    (a :: b :: c :: l)[m]? = l[n]? := by
  subst h
  simp

theorem expectedActions_triple (env : Env) (order : Plan) :
    ∀ (i : Nat) (d : String) (pods : List String), order[i]? = some (d, pods) →
      (expectedActions env order)[3 * i]?
        = some (Effect.exec "kubectl" ["rollout", "restart", "deployment", d]) ∧
      (expectedActions env order)[3 * i + 1]?
        = some (Effect.exec "kubectl"
          (["wait", "--for=delete", "--timeout=" ++ env.durationString env.timeout] ++ pods)) ∧
      (expectedActions env order)[3 * i + 2]? = some (Effect.sleep env.sleep) := by
  induction order with
  | nil =>
    intro i d pods h
    simp at h
  | cons e rest ih =>
    intro i d pods h
    obtain ⟨d0, pods0⟩ := e
    cases i with
    | zero =>
      simp only [List.getElem?_cons_zero, Option.some.injEq, Prod.mk.injEq] at h
      obtain ⟨h1, h2⟩ := h
      subst h1 h2
      refine ⟨?_, ?_, ?_⟩ <;> simp [expectedActions]
    | succ j =>
      simp only [List.getElem?_cons_succ] at h
      have hj := ih j d pods h
      simp only [expectedActions, List.cons_append, List.nil_append]
      rw [getElem?_skip3 _ _ _ _ (3 * j) _ (by omega),
        getElem?_skip3 _ _ _ _ (3 * j + 1) _ (by omega),
        getElem?_skip3 _ _ _ _ (3 * j + 2) _ (by omega)]
      exact hj

theorem mainLoopOver_cons_wait_error (env : Env) (d : String) (pods : List String)
    (rest : Plan) (w : World) (out err : String)
    (hr : env.run (w.trace ++ [Effect.log "Start restarting %q" [d]])
      ["rollout", "restart", "deployment", d] = Except.ok out)
    (hwait : env.run (w.trace ++ [Effect.log "Start restarting %q" [d],
        Effect.exec "kubectl" ["rollout", "restart", "deployment", d],
        Effect.log out [], Effect.log "Start waiting for %q" pods])
      (["wait", "--for=delete", "--timeout=" ++ env.durationString env.timeout] ++ pods)
        = Except.error err) :
    mainLoopOver env ((d, pods) :: rest) w =
      (Except.error (Err.waitFailed pods err),
        { stdin := w.stdin,
          trace := w.trace ++ [Effect.log "Start restarting %q" [d],
            Effect.exec "kubectl" ["rollout", "restart", "deployment", d],
            Effect.log out [], Effect.log "Start waiting for %q" pods,
            Effect.exec "kubectl"
              (["wait", "--for=delete", "--timeout=" ++ env.durationString env.timeout]
                ++ pods),
            Effect.fatal (Err.waitFailed pods err)] }) := by
  rw [mainLoopOver_cons_restart_ok env d pods rest w out hr, restartDep_ok env d w out hr]
  simp only
  have hwait2 : env.run
      ((w.trace ++ [Effect.log "Start restarting %q" [d],
        Effect.exec "kubectl" ["rollout", "restart", "deployment", d],
        Effect.log out []]) ++ [Effect.log "Start waiting for %q" pods])
      (["wait", "--for=delete", "--timeout=" ++ env.durationString env.timeout] ++ pods)
        = Except.error err := by
    rw [← hwait]
    simp
  rw [waitForDeletePods_error env pods env.timeout _ err hwait2]
  simp [World.emit]

theorem mainLoopOver_cons_ok (env : Env) (d : String) (pods : List String)
    (rest : Plan) (w : World) (out out2 : String)
    (hr : env.run (w.trace ++ [Effect.log "Start restarting %q" [d]])
      ["rollout", "restart", "deployment", d] = Except.ok out)
    (hwait : env.run (w.trace ++ [Effect.log "Start restarting %q" [d],
        Effect.exec "kubectl" ["rollout", "restart", "deployment", d],
        Effect.log out [], Effect.log "Start waiting for %q" pods])
      (["wait", "--for=delete", "--timeout=" ++ env.durationString env.timeout] ++ pods)
        = Except.ok out2) :
    mainLoopOver env ((d, pods) :: rest) w =
      mainLoopOver env rest
        { stdin := w.stdin,
          trace := w.trace ++ [Effect.log "Start restarting %q" [d],
            Effect.exec "kubectl" ["rollout", "restart", "deployment", d],
            Effect.log out [], Effect.log "Start waiting for %q" pods,
            Effect.exec "kubectl"
              (["wait", "--for=delete", "--timeout=" ++ env.durationString env.timeout]
                ++ pods),
            Effect.log "Finish waiting for %q" pods, Effect.sleep env.sleep] } := by
  rw [mainLoopOver_cons_restart_ok env d pods rest w out hr, restartDep_ok env d w out hr]
  simp only
  have hwait2 : env.run
      ((w.trace ++ [Effect.log "Start restarting %q" [d],
        Effect.exec "kubectl" ["rollout", "restart", "deployment", d],
        Effect.log out []]) ++ [Effect.log "Start waiting for %q" pods])
      (["wait", "--for=delete", "--timeout=" ++ env.durationString env.timeout] ++ pods)
        = Except.ok out2 := by
    rw [← hwait]
    simp
  rw [waitForDeletePods_ok env pods env.timeout _ out2 hwait2]
  simp [World.emit]

/-- A run of the loop all of whose commands succeeded ends without error and causes the
expected commands and sleeps. -/
theorem mainLoopOver_of_run_succeeded (env : Env) (order : Plan) :
    ∀ w : World, CommandsSucceeded env (mainLoopOver env order w).2.trace →
      ∃ produced,
        mainLoopOver env order w =
          (Except.ok (), { stdin := w.stdin, trace := w.trace ++ produced })
        ∧ actions produced = expectedActions env order := by
  induction order with
  | nil =>
    intro w _
    exact ⟨[], by simp [mainLoopOver], rfl⟩
  | cons e rest ih =>
    intro w h
    obtain ⟨d, pods⟩ := e
    cases hr : env.run (w.trace ++ [Effect.log "Start restarting %q" [d]])
      ["rollout", "restart", "deployment", d] with
    | error err =>
      exfalso
      rw [mainLoopOver_cons_restart_error env d pods rest w err hr] at h
      obtain ⟨out, hout⟩ := h (w.trace ++ [Effect.log "Start restarting %q" [d]]) "kubectl"
        ["rollout", "restart", "deployment", d] [Effect.fatal (Err.restartFailed d err)]
        (by simp)
      rw [hr] at hout
      cases hout
    | ok out =>
      cases hwait : env.run (w.trace ++ [Effect.log "Start restarting %q" [d],
          Effect.exec "kubectl" ["rollout", "restart", "deployment", d],
          Effect.log out [], Effect.log "Start waiting for %q" pods])
        (["wait", "--for=delete", "--timeout=" ++ env.durationString env.timeout] ++ pods) with
      | error err =>
        exfalso
        rw [mainLoopOver_cons_wait_error env d pods rest w out err hr hwait] at h
        obtain ⟨out2, hout⟩ := h (w.trace ++ [Effect.log "Start restarting %q" [d],
            Effect.exec "kubectl" ["rollout", "restart", "deployment", d],
            Effect.log out [], Effect.log "Start waiting for %q" pods]) "kubectl"
          (["wait", "--for=delete", "--timeout=" ++ env.durationString env.timeout] ++ pods)
          [Effect.fatal (Err.waitFailed pods err)] (by simp)
        rw [hwait] at hout
        cases hout
      | ok out2 =>
        rw [mainLoopOver_cons_ok env d pods rest w out out2 hr hwait] at h ⊢
        obtain ⟨produced, hp, ha⟩ := ih _ h
        refine ⟨[Effect.log "Start restarting %q" [d],
            Effect.exec "kubectl" ["rollout", "restart", "deployment", d],
            Effect.log out [], Effect.log "Start waiting for %q" pods,
            Effect.exec "kubectl"
              (["wait", "--for=delete", "--timeout=" ++ env.durationString env.timeout]
                ++ pods),
            Effect.log "Finish waiting for %q" pods, Effect.sleep env.sleep] ++ produced,
          ?_, ?_⟩
        · rw [hp]
          simp
        · simp only [actions, List.filter_append] at ha ⊢
          rw [ha]
          rfl

/-- In a run of the loop that ends without error, started after a history without a failed
command, every command succeeded. -/
theorem mainLoopOver_ok_commandsSucceeded (env : Env) (order : Plan) :
    ∀ w : World, CommandsSucceeded env w.trace →
      (mainLoopOver env order w).1 = Except.ok () →
      CommandsSucceeded env (mainLoopOver env order w).2.trace := by
  induction order with
  | nil =>
    intro w hw _
    exact hw
  | cons e rest ih =>
    intro w hw hres
    obtain ⟨d, pods⟩ := e
    cases hr : env.run (w.trace ++ [Effect.log "Start restarting %q" [d]])
      ["rollout", "restart", "deployment", d] with
    | error err =>
      rw [mainLoopOver_cons_restart_error env d pods rest w err hr] at hres
      cases hres
    | ok out =>
      cases hwait : env.run (w.trace ++ [Effect.log "Start restarting %q" [d],
          Effect.exec "kubectl" ["rollout", "restart", "deployment", d],
          Effect.log out [], Effect.log "Start waiting for %q" pods])
        (["wait", "--for=delete", "--timeout=" ++ env.durationString env.timeout] ++ pods) with
      | error err =>
        rw [mainLoopOver_cons_wait_error env d pods rest w out err hr hwait] at hres
        cases hres
      | ok out2 =>
        rw [mainLoopOver_cons_ok env d pods rest w out out2 hr hwait] at hres ⊢
        apply ih _ _ hres
        have h1 := CommandsSucceeded.snoc_other env _ (Effect.log "Start restarting %q" [d])
          hw (fun n a h => by cases h)
        have h2 := CommandsSucceeded.snoc_exec env _ "kubectl" _ out h1 hr
        have h3 := CommandsSucceeded.snoc_other env _ (Effect.log out []) h2
          (fun n a h => by cases h)
        have h4 := CommandsSucceeded.snoc_other env _ (Effect.log "Start waiting for %q" pods)
          h3 (fun n a h => by cases h)
        have hwait2 : env.run
            (w.trace ++ [Effect.log "Start restarting %q" [d]] ++
              [Effect.exec "kubectl" ["rollout", "restart", "deployment", d]] ++
              [Effect.log out []] ++ [Effect.log "Start waiting for %q" pods])
            (["wait", "--for=delete", "--timeout=" ++ env.durationString env.timeout] ++ pods)
              = Except.ok out2 := by
          rw [← hwait]
          simp
        have h5 := CommandsSucceeded.snoc_exec env _ "kubectl" _ out2 h4 hwait2
        have h6 := CommandsSucceeded.snoc_other env _
          (Effect.log "Finish waiting for %q" pods) h5 (fun n a h => by cases h)
        have h7 := CommandsSucceeded.snoc_other env _ (Effect.sleep env.sleep) h6
          (fun n a h => by cases h)
        simpa using h7

/-! ## C9 -/

/-- C9: in the restart loop of `main`, started after a history in which no command failed,
a command that fails is followed by nothing but the fatal exit, so it is the last external
command issued; if the loop reaches deployment `d` and its restart fails, the run ends with
that restart and the exit (no wait for `d`, nothing for later deployments); if the restart
succeeds and the wait fails, the run ends with that wait and the exit. -/
theorem mainLoop_first_failure_is_last_command (env : Env) (podsPerDep : Plan) (w : World)
    (hclean : CommandsSucceeded env w.trace) :
    (∀ pre name args post err,
      (mainLoop env podsPerDep w).2.trace = pre ++ Effect.exec name args :: post →
      env.run pre args = Except.error err →
      ∃ e, post = [Effect.fatal e]) ∧
    (∀ before d pods after w1 err,
      env.rangeOrder w.trace podsPerDep = before ++ (d, pods) :: after →
      mainLoopOver env before w = (Except.ok (), w1) →
      env.run (w1.trace ++ [Effect.log "Start restarting %q" [d]])
        ["rollout", "restart", "deployment", d] = Except.error err →
      mainLoop env podsPerDep w =
        (Except.error (Err.restartFailed d err),
          { stdin := w1.stdin,
            trace := w1.trace ++ [Effect.log "Start restarting %q" [d],
              Effect.exec "kubectl" ["rollout", "restart", "deployment", d],
              Effect.fatal (Err.restartFailed d err)] })) ∧
    (∀ before d pods after w1 out err,
      env.rangeOrder w.trace podsPerDep = before ++ (d, pods) :: after →
      mainLoopOver env before w = (Except.ok (), w1) →
      env.run (w1.trace ++ [Effect.log "Start restarting %q" [d]])
        ["rollout", "restart", "deployment", d] = Except.ok out →
      env.run (w1.trace ++ [Effect.log "Start restarting %q" [d],
          Effect.exec "kubectl" ["rollout", "restart", "deployment", d],
          Effect.log out [], Effect.log "Start waiting for %q" pods])
        (["wait", "--for=delete", "--timeout=" ++ env.durationString env.timeout] ++ pods)
          = Except.error err →
      mainLoop env podsPerDep w =
        (Except.error (Err.waitFailed pods err),
          { stdin := w1.stdin,
            trace := w1.trace ++ [Effect.log "Start restarting %q" [d],
              Effect.exec "kubectl" ["rollout", "restart", "deployment", d],
              Effect.log out [], Effect.log "Start waiting for %q" pods,
              Effect.exec "kubectl"
                (["wait", "--for=delete", "--timeout=" ++ env.durationString env.timeout]
                  ++ pods),
              Effect.fatal (Err.waitFailed pods err)] })) := by
  refine ⟨?_, ?_, ?_⟩
  · intro pre name args post err hsplit hfail
    unfold mainLoop at hsplit
    rcases mainLoopOver_invariant env (env.rangeOrder w.trace podsPerDep) w hclean with
      hall | ⟨t, n, a, e, htrace, ht, _⟩
    · obtain ⟨out, hout⟩ := hall pre name args post hsplit
      rw [hout] at hfail
      cases hfail
    · rw [htrace] at hsplit
      exact ⟨e, failure_is_last env t n a e ht pre name args post err hsplit hfail⟩
  · intro before d pods after w1 err horder hbefore hfail
    unfold mainLoop
    rw [horder, mainLoopOver_append env before _ w w1 hbefore]
    exact mainLoopOver_cons_restart_error env d pods after w1 err hfail
  · intro before d pods after w1 out err horder hbefore hok hfail
    unfold mainLoop
    rw [horder, mainLoopOver_append env before _ w w1 hbefore,
      mainLoopOver_cons_restart_ok env d pods after w1 out hok, restartDep_ok env d w1 out hok]
    simp only
    have hfail2 : env.run
        ((w1.trace ++ [Effect.log "Start restarting %q" [d],
          Effect.exec "kubectl" ["rollout", "restart", "deployment", d],
          Effect.log out []]) ++ [Effect.log "Start waiting for %q" pods])
        (["wait", "--for=delete", "--timeout=" ++ env.durationString env.timeout] ++ pods)
          = Except.error err := by
      rw [← hfail]
      simp
    rw [waitForDeletePods_error env pods env.timeout _ err hfail2]
    simp [World.emit]

/-- C9 on `planExample`: when the fourth command (the wait for `api`) fails the run ends
there, and when the third command (the restart of `api`) fails the run ends there; in both
runs nothing is issued for `db`. -/
theorem mainLoop_first_failure_is_last_command_witness :
    CommandsSucceeded (envFailingAt 3) [] ∧
    mainLoop (envFailingAt 3) planExample { stdin := "", trace := [] } =
      (Except.error (Err.waitFailed ["pod/api-0"] "exit status 1"),
        { stdin := "",
          trace := [Effect.log "Start restarting %q" ["web"],
            Effect.exec "kubectl" ["rollout", "restart", "deployment", "web"],
            Effect.log "restarted" [],
            Effect.log "Start waiting for %q" ["pod/web-1", "pod/web-2"],
            Effect.exec "kubectl"
              ["wait", "--for=delete", "--timeout=10m0s", "pod/web-1", "pod/web-2"],
            Effect.log "Finish waiting for %q" ["pod/web-1", "pod/web-2"],
            Effect.sleep 60000000000,
            Effect.log "Start restarting %q" ["api"],
            Effect.exec "kubectl" ["rollout", "restart", "deployment", "api"],
            Effect.log "restarted" [],
            Effect.log "Start waiting for %q" ["pod/api-0"],
            Effect.exec "kubectl" ["wait", "--for=delete", "--timeout=10m0s", "pod/api-0"],
            Effect.fatal (Err.waitFailed ["pod/api-0"] "exit status 1")] }) ∧
    mainLoop (envFailingAt 2) planExample { stdin := "", trace := [] } =
      (Except.error (Err.restartFailed "api" "exit status 1"),
        { stdin := "",
          trace := [Effect.log "Start restarting %q" ["web"],
            Effect.exec "kubectl" ["rollout", "restart", "deployment", "web"],
            Effect.log "restarted" [],
            Effect.log "Start waiting for %q" ["pod/web-1", "pod/web-2"],
            Effect.exec "kubectl"
              ["wait", "--for=delete", "--timeout=10m0s", "pod/web-1", "pod/web-2"],
            Effect.log "Finish waiting for %q" ["pod/web-1", "pod/web-2"],
            Effect.sleep 60000000000,
            Effect.log "Start restarting %q" ["api"],
            Effect.exec "kubectl" ["rollout", "restart", "deployment", "api"],
            Effect.fatal (Err.restartFailed "api" "exit status 1")] }) := by
  refine ⟨CommandsSucceeded.nil _, ?_, ?_⟩
  · exact (mainLoop_first_failure_is_last_command (envFailingAt 3) planExample
      { stdin := "", trace := [] } (CommandsSucceeded.nil _)).2.2
      [("web", ["pod/web-1", "pod/web-2"])] "api" ["pod/api-0"] [("db", ["pod/db-0"])]
      _ "restarted" "exit status 1" rfl rfl rfl rfl
  · exact (mainLoop_first_failure_is_last_command (envFailingAt 2) planExample
      { stdin := "", trace := [] } (CommandsSucceeded.nil _)).2.1
      [("web", ["pod/web-1", "pod/web-2"])] "api" ["pod/api-0"] [("db", ["pod/db-0"])]
      _ "exit status 1" rfl rfl rfl

/-! ## C10 -/

/-- C10: in a run of the restart loop of `main` in which every external command succeeds,
with `range` visiting every entry of the plan once and the keys of the plan distinct, the
loop ends without error, and the external commands and sleeps it causes are exactly three per
visited entry, in visiting order: the rollout restart of the deployment, the wait for exactly
its planned Pod identifiers in plan order, the sleep of the configured interval. The visited
names are the keys of the plan, each once, so there are three times as many effects as keys,
and the wait of an entry comes directly after its restart. -/
theorem mainLoop_all_commands_succeed (env : Env) (podsPerDep : Plan) (w : World)
    (hrun : CommandsSucceeded env (mainLoop env podsPerDep w).2.trace)
    (hrange : ∀ t m, (env.rangeOrder t m).Perm m)
    (hkeys : (Plan.keys podsPerDep).Nodup) :
    ∃ produced,
      mainLoop env podsPerDep w =
        (Except.ok (), { stdin := w.stdin, trace := w.trace ++ produced }) ∧
      actions produced = expectedActions env (env.rangeOrder w.trace podsPerDep) ∧
      (actions produced).length = 3 * podsPerDep.length ∧
      ((env.rangeOrder w.trace podsPerDep).map Prod.fst).Perm (Plan.keys podsPerDep) ∧
      ((env.rangeOrder w.trace podsPerDep).map Prod.fst).Nodup ∧
      (∀ entry ∈ env.rangeOrder w.trace podsPerDep,
        entry.2 = Plan.get podsPerDep entry.1) ∧
      (∀ (i : Nat) (d : String) (pods : List String),
        (env.rangeOrder w.trace podsPerDep)[i]? = some (d, pods) →
        (actions produced)[3 * i]?
          = some (Effect.exec "kubectl" ["rollout", "restart", "deployment", d]) ∧
        (actions produced)[3 * i + 1]?
          = some (Effect.exec "kubectl"
            (["wait", "--for=delete", "--timeout=" ++ env.durationString env.timeout]
              ++ pods)) ∧
        (actions produced)[3 * i + 2]? = some (Effect.sleep env.sleep)) := by
  obtain ⟨produced, hres, hact⟩ :=
    mainLoopOver_of_run_succeeded env (env.rangeOrder w.trace podsPerDep) w hrun
  have hperm := hrange w.trace podsPerDep
  have hpk : ((env.rangeOrder w.trace podsPerDep).map Prod.fst).Perm (Plan.keys podsPerDep) :=
    hperm.map Prod.fst
  refine ⟨produced, hres, hact, ?_, hpk, hpk.nodup_iff.mpr hkeys, ?_, ?_⟩
  · rw [hact, expectedActions_length, hperm.length_eq]
  · intro entry hmem
    have hm : (entry.1, entry.2) ∈ podsPerDep := hperm.mem_iff.mp hmem
    simp [Plan.get, Plan.lookup_of_mem podsPerDep hkeys entry.1 entry.2 hm]
  · intro i d pods hi
    rw [hact]
    exact expectedActions_triple env _ i d pods hi

/-- C10 on `planExample` with `envLate`, whose `kubectl` would fail as a seventh command and
whose `range` visits the plan in reverse: the six commands of the run succeed, and the run
causes nine effects, the triples of `db`, `api` and `web`. -/
theorem mainLoop_all_commands_succeed_witness :
    CommandsSucceeded envLate (mainLoop envLate planExample { stdin := "", trace := [] }).2.trace ∧
    (∀ t m, (envLate.rangeOrder t m).Perm m) ∧
    (Plan.keys planExample).Nodup ∧
    (∃ t args err, envLate.run t args = Except.error err) ∧
    (mainLoop envLate planExample { stdin := "", trace := [] }).1 = Except.ok () ∧
    actions (mainLoop envLate planExample { stdin := "", trace := [] }).2.trace =
      [Effect.exec "kubectl" ["rollout", "restart", "deployment", "db"],
       Effect.exec "kubectl" ["wait", "--for=delete", "--timeout=10m0s", "pod/db-0"],
       Effect.sleep 60000000000,
       Effect.exec "kubectl" ["rollout", "restart", "deployment", "api"],
       Effect.exec "kubectl" ["wait", "--for=delete", "--timeout=10m0s", "pod/api-0"],
       Effect.sleep 60000000000,
       Effect.exec "kubectl" ["rollout", "restart", "deployment", "web"],
       Effect.exec "kubectl"
         ["wait", "--for=delete", "--timeout=10m0s", "pod/web-1", "pod/web-2"],
       Effect.sleep 60000000000] := by
  have h1 : CommandsSucceeded envLate
      (mainLoop envLate planExample { stdin := "", trace := [] }).2.trace :=
    mainLoopOver_ok_commandsSucceeded envLate _ _ (CommandsSucceeded.nil _) rfl
  have h2 : ∀ t m, (envLate.rangeOrder t m).Perm m := fun _ m => List.reverse_perm m
  have h3 : (Plan.keys planExample).Nodup := by decide
  obtain ⟨produced, hres, hact, _⟩ :=
    mainLoop_all_commands_succeed envLate planExample { stdin := "", trace := [] } h1 h2 h3
  refine ⟨h1, h2, h3, ?_, ?_, ?_⟩
  · exact ⟨(mainLoop envLate planExample { stdin := "", trace := [] }).2.trace, [], _, rfl⟩
  · rw [hres]
  · rw [hres]
    simp only [List.nil_append]
    rw [hact]
    rfl


end Restarter
